import Mathlib

/-!
Verification development for the MPC controller of `handful-of-trials-pytorch`
(`controller.py` and companions).

The tensor code is shallowly embedded: a 2-D tensor of rationals is a function
`Nat → Nat → ℚ` (row index, column index) together with shape bounds carried in
the theorem statements; a 3-D tensor is `Nat → Nat → Nat → ℚ`.  Reshape /
transpose operations of the source become explicit index arithmetic, and the
stateful parts of the controller become explicit state passing.  External
hooks of the controller (`get_reward`, the ensemble prediction) are parameters
of the embedding, exactly as they are injected parameters of the Python class.
-/

namespace HOT

/-- Embedding of `MPC._to_bootstrap_shape` (controller.py, lines 374-382).
The source reshapes a `(x * num_part, num_features)` matrix by
`view(-1, num_nets, num_part // num_nets, F)`, `transpose(0, 1)`,
`view(num_nets, -1, F)`.  Writing `ppn = num_part / num_nets`, output entry
`(n, j, f)` with `j = a * ppn + b` reads input row
`a * (num_nets * ppn) + n * ppn + b`. -/
def to_bootstrap_shape (num_nets num_part : Nat) (input : Nat → Nat → ℚ) :
    Nat → Nat → Nat → ℚ :=
  fun n j f =>
    let ppn := num_part / num_nets
    input ((j / ppn) * (num_nets * ppn) + n * ppn + j % ppn) f

/-- Embedding of `MPC._from_bootstrap_shape` (controller.py, lines 384-392).
The source reshapes a `(num_nets, x * ppn, num_features)` tensor by
`view(num_nets, -1, ppn, F)`, `transpose(0, 1)`, `view(-1, F)`.  Output row
`i = a * (num_nets * ppn) + n * ppn + b` reads input entry
`(n, a * ppn + b, f)`. -/
def from_bootstrap_shape (num_nets num_part : Nat) (input : Nat → Nat → Nat → ℚ) :
    Nat → Nat → ℚ :=
  fun i f =>
    let ppn := num_part / num_nets
    let P := num_nets * ppn
    input ((i % P) / ppn) ((i / P) * ppn + (i % P) % ppn) f

lemma to_of_from_index (ppn P i : Nat) (hppn : 0 < ppn) :
    ((((i / P) * ppn + (i % P) % ppn) / ppn) * P
        + ((i % P) / ppn) * ppn + ((i / P) * ppn + (i % P) % ppn) % ppn) = i := by
  have hmod : (i % P) % ppn < ppn := Nat.mod_lt _ hppn
  have hdiv : ((i / P) * ppn + (i % P) % ppn) / ppn = i / P := by
    rw [Nat.mul_comm (i / P) ppn, Nat.mul_add_div hppn]
    simp [Nat.div_eq_of_lt hmod]
  have hmod2 : ((i / P) * ppn + (i % P) % ppn) % ppn = (i % P) % ppn := by
    rw [Nat.mul_comm (i / P) ppn, Nat.mul_add_mod]
    exact Nat.mod_eq_of_lt hmod
  rw [hdiv, hmod2]
  have hsplit : P * (i / P) + i % P = i := Nat.div_add_mod i P
  have hsplit2 : ppn * ((i % P) / ppn) + (i % P) % ppn = i % P := Nat.div_add_mod (i % P) ppn
  have hPsplit : (i / P) * P = P * (i / P) := Nat.mul_comm _ _
  have hpsplit : ((i % P) / ppn) * ppn = ppn * ((i % P) / ppn) := Nat.mul_comm _ _
  omega

/-- Claim C6: the particle-to-member reshape and unreshape of `controller.py`
(`_to_bootstrap_shape`, `_from_bootstrap_shape`) are mutually inverse: for a
matrix whose leading dimension is a multiple `x * num_part` of the particle
count (with the particle count divisible by the ensemble size),
`_from_bootstrap_shape` after `_to_bootstrap_shape` is the identity on every
in-range entry, and for a bootstrap-shaped tensor `(num_nets, m, F)` with `m` a
multiple of `num_part / num_nets`, `_to_bootstrap_shape` after
`_from_bootstrap_shape` is the identity on every in-range entry. -/
theorem bootstrap_shape_roundtrip (num_nets num_part x m F : Nat)
    (hn : 0 < num_nets) (hd : num_nets ∣ num_part) (hp : 0 < num_part)
    (hm : (num_part / num_nets) ∣ m)
    (input : Nat → Nat → ℚ) (input3 : Nat → Nat → Nat → ℚ) :
    (∀ i f, i < x * num_part → f < F →
        from_bootstrap_shape num_nets num_part
          (to_bootstrap_shape num_nets num_part input) i f = input i f) ∧
    (∀ n j f, n < num_nets → j < m → f < F →
        to_bootstrap_shape num_nets num_part
          (from_bootstrap_shape num_nets num_part input3) n j f = input3 n j f) := by
  obtain ⟨t, ht⟩ := hd
  have hppn : num_part / num_nets = t := by
    rw [ht, Nat.mul_div_cancel_left _ hn]
  have htpos : 0 < t := by
    rcases Nat.eq_zero_or_pos t with h0 | h1
    · subst h0; simp [ht] at hp
    · exact h1
  constructor
  · intro i f _ _
    simp only [from_bootstrap_shape, to_bootstrap_shape, hppn]
    have := to_of_from_index t (num_nets * t) i htpos
    rw [this]
  · intro n j f hnlt _ _
    simp only [from_bootstrap_shape, to_bootstrap_shape, hppn]
    have hblt : j % t < t := Nat.mod_lt _ htpos
    have hrem : n * t + j % t < num_nets * t := by
      calc n * t + j % t < n * t + t := by omega
        _ = (n + 1) * t := by ring
        _ ≤ num_nets * t := Nat.mul_le_mul_right t hnlt
    have hrow : (j / t) * (num_nets * t) + n * t + j % t
        = (num_nets * t) * (j / t) + (n * t + j % t) := by ring
    have hdiv : ((j / t) * (num_nets * t) + n * t + j % t) / (num_nets * t) = j / t := by
      rw [hrow, Nat.mul_add_div (by positivity)]
      simp [Nat.div_eq_of_lt hrem]
    have hmod : ((j / t) * (num_nets * t) + n * t + j % t) % (num_nets * t)
        = n * t + j % t := by
      rw [hrow, Nat.mul_add_mod]
      exact Nat.mod_eq_of_lt hrem
    rw [hdiv, hmod]
    have hd2 : (n * t + j % t) / t = n := by
      rw [Nat.mul_comm n t, Nat.mul_add_div htpos]
      simp [Nat.div_eq_of_lt hblt]
    have hm2 : (n * t + j % t) % t = j % t := by
      rw [Nat.mul_comm n t, Nat.mul_add_mod]
      exact Nat.mod_eq_of_lt hblt
    rw [hd2, hm2, Nat.div_add_mod']

/-- Witness for C6 at a concrete configuration: `num_nets = 2`, `num_part = 4`,
a `(3 * 4, 1)` input matrix and a `(2, 6, 1)` bootstrap-shaped tensor, checked
at entries `(5, 0)` and `(1, 3, 0)`. -/
theorem bootstrap_shape_roundtrip_witness :
    from_bootstrap_shape 2 4 (to_bootstrap_shape 2 4 (fun i f => (i : ℚ) + f)) 5 0
        = (fun i f => (i : ℚ) + f) 5 0 ∧
    to_bootstrap_shape 2 4 (from_bootstrap_shape 2 4 (fun n j f => (100 * n + 10 * j + f : ℚ)))
        1 3 0 = (fun n j f => (100 * n + 10 * j + f : ℚ)) 1 3 0 := by
  have h := bootstrap_shape_roundtrip 2 4 3 6 1 (by decide) ⟨2, rfl⟩ (by decide) ⟨3, rfl⟩
    (fun i f => (i : ℚ) + f) (fun n j f => (100 * n + 10 * j + f : ℚ))
  exact ⟨h.1 5 0 (by decide) (by decide), h.2 1 3 0 (by decide) (by decide) (by decide)⟩

section CompileScore

variable {σ α : Type}

/-- Per-row state of one chunk of the flat particle batch inside
`MPC._compile_score` (controller.py, lines 298-320): the current observation,
the alive mask entry and the accumulated score of every flat row.  Rows outside
the chunk currently being processed are simply never touched. -/
structure ChunkState (σ : Type) where
  obs : Nat → σ
  alive : Nat → ℚ
  score : Nat → ℚ

/-- One iteration of the horizon loop of `_compile_score` (lines 303-318) on
the rows `lo ≤ j < hi` of a chunk: `next_obs = predict(obs, acts)`;
`(rewards, dones) = get_reward(obs, acts, next_obs)`;
`alives = min(alives, 1 - dones)`; `scores += alives * rewards`;
`obs = next_obs`.  `predict` abstracts `_predict_next_obs_divide` (one sampled
ensemble prediction per row) and `get_reward` is the injected reward hook. -/
def chunkStep (predict : σ → α → σ) (get_reward : σ → α → σ → ℚ × ℚ)
    (lo hi : Nat) (acts : Nat → α) (c : ChunkState σ) : ChunkState σ where
  obs := fun j => if lo ≤ j ∧ j < hi then predict (c.obs j) (acts j) else c.obs j
  alive := fun j =>
    if lo ≤ j ∧ j < hi then
      min (c.alive j) (1 - (get_reward (c.obs j) (acts j) (predict (c.obs j) (acts j))).2)
    else c.alive j
  score := fun j =>
    if lo ≤ j ∧ j < hi then
      c.score j +
        min (c.alive j) (1 - (get_reward (c.obs j) (acts j) (predict (c.obs j) (acts j))).2) *
          (get_reward (c.obs j) (acts j) (predict (c.obs j) (acts j))).1
    else c.score j

/-- The horizon loop `for t in range(plan_hor)` of `_compile_score` on one
chunk, started at step index `t` with `fuel` steps left.  When `brk` is true
the loop exits right after a step that leaves `alives.sum() == 0` over the
chunk (lines 319-320); with `brk = false` it always iterates the full horizon.
`plan j t` is the action of flat row `j` at horizon step `t`
(`acts = plans[:, t]`). -/
def chunkLoop (predict : σ → α → σ) (get_reward : σ → α → σ → ℚ × ℚ) (brk : Bool)
    (lo hi : Nat) (plan : Nat → Nat → α) : Nat → Nat → ChunkState σ → ChunkState σ
  | _, 0, c => c
  | t, fuel + 1, c =>
    let c2 := chunkStep predict get_reward lo hi (fun j => plan j t) c
    if brk ∧ (Finset.Ico lo hi).sum c2.alive = 0 then c2
    else chunkLoop predict get_reward brk lo hi plan (t + 1) fuel c2

/-- Flattening of the candidate plans in `_compile_score` (lines 278-285):
`view(num_obs, num_plans, plan_hor, act_features)`, `unsqueeze(2)`,
`expand(-1, -1, num_part, -1, -1)`, `view(-1, plan_hor, act_features)`.
Flat row `(o * num_plans + p) * num_part + k` holds plan `(o, p)`, so the plan
of row `j` at step `t` is
`plans (j / (num_plans * num_part)) ((j / num_part) % num_plans) t`. -/
def flat_plans (num_plans num_part : Nat) (plans : Nat → Nat → Nat → α) :
    Nat → Nat → α :=
  fun j t => plans (j / (num_plans * num_part)) ((j / num_part) % num_plans) t

/-- Flattening of the starting observations in `_compile_score` (line 290):
`obs = cur_obs.repeat(num_plans * num_part, 1)`.  `Tensor.repeat` tiles the
whole tensor, so flat row `j` holds `cur_obs (j % num_obs)`. -/
def flat_obs (num_obs : Nat) (cur_obs : Nat → σ) : Nat → σ :=
  fun j => cur_obs (j % num_obs)

/-- The state of the flat batch before any horizon step: starting observations
as flattened at line 290, `alives = torch.ones(...)` (line 301) and
`scores = torch.zeros(...)` (line 294). -/
def initChunk (num_obs : Nat) (cur_obs : Nat → σ) : ChunkState σ where
  obs := flat_obs num_obs cur_obs
  alive := fun _ => 1
  score := fun _ => 0

/-- Flat per-row scores computed by `_compile_score` (lines 292-320): flat row
`j` lives in chunk `i = j / batch_size`, which covers rows
`[i * batch_size, min ((i+1) * batch_size) N)` of the flat batch of size
`N = num_obs * num_plans * num_part`, and the chunk runs the horizon loop from
step 0 with `plan_hor` steps of fuel. -/
def compile_score_flat (predict : σ → α → σ) (get_reward : σ → α → σ → ℚ × ℚ)
    (brk : Bool) (num_obs num_plans num_part plan_hor batch_size : Nat)
    (plans : Nat → Nat → Nat → α) (cur_obs : Nat → σ) : Nat → ℚ :=
  fun j =>
    let N := num_obs * num_plans * num_part
    let i := j / batch_size
    (chunkLoop predict get_reward brk (i * batch_size) (min ((i + 1) * batch_size) N)
        (flat_plans num_plans num_part plans) 0 plan_hor
        (initChunk num_obs cur_obs)).score j

/-- The `(num_obs, num_plans)` score matrix returned by `_compile_score`
(lines 322-332): the flat scores are viewed as `(num_obs, num_plans, num_part)`
and averaged over the particle axis. -/
def compile_score (predict : σ → α → σ) (get_reward : σ → α → σ → ℚ × ℚ)
    (brk : Bool) (num_obs num_plans num_part plan_hor batch_size : Nat)
    (plans : Nat → Nat → Nat → α) (cur_obs : Nat → σ) : Nat → Nat → ℚ :=
  fun o p =>
    ((Finset.range num_part).sum fun k =>
        compile_score_flat predict get_reward brk num_obs num_plans num_part plan_hor
          batch_size plans cur_obs ((o * num_plans + p) * num_part + k)) / (num_part : ℚ)

end CompileScore

section ChunkLemmas

variable {σ α : Type} (predict : σ → α → σ) (get_reward : σ → α → σ → ℚ × ℚ)
variable (lo hi : Nat) (plan : Nat → Nat → α)

lemma chunkStep_out (acts : Nat → α) (c : ChunkState σ) (j : Nat)
    (h : ¬(lo ≤ j ∧ j < hi)) :
    (chunkStep predict get_reward lo hi acts c).obs j = c.obs j ∧
    (chunkStep predict get_reward lo hi acts c).alive j = c.alive j ∧
    (chunkStep predict get_reward lo hi acts c).score j = c.score j := by
  simp only [chunkStep, if_neg h]
  exact ⟨trivial, trivial, trivial⟩

lemma chunkStep_alive_le (acts : Nat → α) (c : ChunkState σ) (j : Nat) :
    (chunkStep predict get_reward lo hi acts c).alive j ≤ c.alive j := by
  simp only [chunkStep]
  by_cases h : lo ≤ j ∧ j < hi
  · rw [if_pos h]
    exact min_le_left _ _
  · rw [if_neg h]

lemma chunkStep_alive_bool
    (hb : ∀ s a s2, (get_reward s a s2).2 = 0 ∨ (get_reward s a s2).2 = 1)
    (acts : Nat → α) (c : ChunkState σ) (hc : ∀ j, c.alive j = 0 ∨ c.alive j = 1)
    (j : Nat) :
    (chunkStep predict get_reward lo hi acts c).alive j = 0 ∨
    (chunkStep predict get_reward lo hi acts c).alive j = 1 := by
  simp only [chunkStep]
  by_cases h : lo ≤ j ∧ j < hi
  · rw [if_pos h]
    rcases hb (c.obs j) (acts j) (predict (c.obs j) (acts j)) with hd | hd <;>
      rcases hc j with ha | ha <;> rw [hd, ha] <;> norm_num
  · rw [if_neg h]
    exact hc j

lemma chunkStep_dead (hd1 : ∀ s a s2, (get_reward s a s2).2 ≤ 1)
    (acts : Nat → α) (c : ChunkState σ) (j : Nat) (hj : c.alive j = 0) :
    (chunkStep predict get_reward lo hi acts c).alive j = 0 ∧
    (chunkStep predict get_reward lo hi acts c).score j = c.score j := by
  simp only [chunkStep]
  by_cases h : lo ≤ j ∧ j < hi
  · have hnn : (0 : ℚ) ≤ 1 - (get_reward (c.obs j) (acts j) (predict (c.obs j) (acts j))).2 := by
      have := hd1 (c.obs j) (acts j) (predict (c.obs j) (acts j))
      linarith
    have hmin : min (c.alive j)
        (1 - (get_reward (c.obs j) (acts j) (predict (c.obs j) (acts j))).2) = 0 := by
      rw [hj]
      exact min_eq_left hnn
    rw [if_pos h, if_pos h, hmin]
    constructor
    · rfl
    · ring
  · rw [if_neg h, if_neg h]
    exact ⟨hj, rfl⟩

lemma chunkLoop_dead (hd1 : ∀ s a s2, (get_reward s a s2).2 ≤ 1) (brk : Bool) :
    ∀ (fuel t : Nat) (c : ChunkState σ) (j : Nat), c.alive j = 0 →
      (chunkLoop predict get_reward brk lo hi plan t fuel c).alive j = 0 ∧
      (chunkLoop predict get_reward brk lo hi plan t fuel c).score j = c.score j := by
  intro fuel
  induction fuel with
  | zero => intro t c j hj; exact ⟨hj, rfl⟩
  | succ n ih =>
    intro t c j hj
    have hstep := chunkStep_dead predict get_reward lo hi hd1 (fun j2 => plan j2 t) c j hj
    simp only [chunkLoop]
    by_cases hcond : brk = true ∧
        (Finset.Ico lo hi).sum (chunkStep predict get_reward lo hi (fun j2 => plan j2 t) c).alive = 0
    · rw [if_pos hcond]
      exact hstep
    · rw [if_neg hcond]
      have := ih (t + 1) (chunkStep predict get_reward lo hi (fun j2 => plan j2 t) c) j hstep.1
      exact ⟨this.1, this.2.trans hstep.2⟩

lemma chunkLoop_all_dead_score (hd1 : ∀ s a s2, (get_reward s a s2).2 ≤ 1) (brk : Bool) :
    ∀ (fuel t : Nat) (c : ChunkState σ),
      (∀ j, lo ≤ j → j < hi → c.alive j = 0) →
      ∀ j, (chunkLoop predict get_reward brk lo hi plan t fuel c).score j = c.score j := by
  intro fuel
  induction fuel with
  | zero => intro t c _ j; rfl
  | succ n ih =>
    intro t c hdead j
    have hscore : ∀ j2, (chunkStep predict get_reward lo hi (fun j3 => plan j3 t) c).score j2
        = c.score j2 := by
      intro j2
      by_cases h : lo ≤ j2 ∧ j2 < hi
      · exact (chunkStep_dead predict get_reward lo hi hd1 _ c j2 (hdead j2 h.1 h.2)).2
      · exact (chunkStep_out predict get_reward lo hi _ c j2 h).2.2
    have halive : ∀ j2, lo ≤ j2 → j2 < hi →
        (chunkStep predict get_reward lo hi (fun j3 => plan j3 t) c).alive j2 = 0 := by
      intro j2 h1 h2
      exact (chunkStep_dead predict get_reward lo hi hd1 _ c j2 (hdead j2 h1 h2)).1
    simp only [chunkLoop]
    by_cases hcond : brk = true ∧
        (Finset.Ico lo hi).sum (chunkStep predict get_reward lo hi (fun j2 => plan j2 t) c).alive = 0
    · rw [if_pos hcond]
      exact hscore j
    · rw [if_neg hcond]
      exact (ih (t + 1) _ halive j).trans (hscore j)

lemma chunkLoop_break_eq
    (hb : ∀ s a s2, (get_reward s a s2).2 = 0 ∨ (get_reward s a s2).2 = 1) :
    ∀ (fuel t : Nat) (c : ChunkState σ),
      (∀ j, c.alive j = 0 ∨ c.alive j = 1) →
      ∀ j, (chunkLoop predict get_reward true lo hi plan t fuel c).score j
          = (chunkLoop predict get_reward false lo hi plan t fuel c).score j := by
  have hd1 : ∀ s a s2, (get_reward s a s2).2 ≤ 1 := by
    intro s a s2
    rcases hb s a s2 with h | h <;> rw [h] <;> norm_num
  intro fuel
  induction fuel with
  | zero => intro t c _ j; rfl
  | succ n ih =>
    intro t c hc j
    have hc2 := chunkStep_alive_bool predict get_reward lo hi hb (fun j2 => plan j2 t) c hc
    simp only [chunkLoop]
    by_cases hcond : (Finset.Ico lo hi).sum
        (chunkStep predict get_reward lo hi (fun j2 => plan j2 t) c).alive = 0
    · have hdead : ∀ j2, lo ≤ j2 → j2 < hi →
          (chunkStep predict get_reward lo hi (fun j3 => plan j3 t) c).alive j2 = 0 := by
        have hnn : ∀ j2 ∈ Finset.Ico lo hi,
            0 ≤ (chunkStep predict get_reward lo hi (fun j3 => plan j3 t) c).alive j2 := by
          intro j2 _
          rcases hc2 j2 with h | h <;> rw [h] <;> norm_num
        intro j2 h1 h2
        exact (Finset.sum_eq_zero_iff_of_nonneg hnn).mp hcond j2 (Finset.mem_Ico.mpr ⟨h1, h2⟩)
      rw [if_pos ⟨by simp, hcond⟩, if_neg (by simp)]
      exact (chunkLoop_all_dead_score predict get_reward lo hi plan hd1 false n (t + 1) _
        hdead j).symm
    · rw [if_neg (by simp [hcond]), if_neg (by simp)]
      exact ih (t + 1) _ hc2 j

end ChunkLemmas

/-- Claim C7: within a `_compile_score` rollout, (1) each particle's alive mask
is non-increasing at every horizon step; (2) a particle whose done signal fires
(done = 1) has alive mask 0 right after that step; (3) each step adds exactly
`alive × reward` (with the just-updated alive mask, lines 315-316) to the
particle's score; (4) once a particle's alive mask is 0, it stays 0 through the
rest of the horizon loop and the particle's score is frozen — provided the done
outputs of the reward hook never exceed 1 (in particular for 0/1 flags). -/
theorem alive_mask_monotone {σ α : Type} (predict : σ → α → σ)
    (get_reward : σ → α → σ → ℚ × ℚ) (lo hi : Nat) (plan : Nat → Nat → α) :
    (∀ (acts : Nat → α) (c : ChunkState σ) (j : Nat),
        (chunkStep predict get_reward lo hi acts c).alive j ≤ c.alive j) ∧
    (∀ (acts : Nat → α) (c : ChunkState σ) (j : Nat), lo ≤ j → j < hi →
        0 ≤ c.alive j →
        (get_reward (c.obs j) (acts j) (predict (c.obs j) (acts j))).2 = 1 →
        (chunkStep predict get_reward lo hi acts c).alive j = 0) ∧
    (∀ (acts : Nat → α) (c : ChunkState σ) (j : Nat), lo ≤ j → j < hi →
        (chunkStep predict get_reward lo hi acts c).score j
          = c.score j + (chunkStep predict get_reward lo hi acts c).alive j *
              (get_reward (c.obs j) (acts j) (predict (c.obs j) (acts j))).1) ∧
    (∀ (brk : Bool) (fuel t : Nat) (c : ChunkState σ) (j : Nat),
        (∀ s a s2, (get_reward s a s2).2 ≤ 1) → c.alive j = 0 →
        (chunkLoop predict get_reward brk lo hi plan t fuel c).alive j = 0 ∧
        (chunkLoop predict get_reward brk lo hi plan t fuel c).score j = c.score j) := by
  refine ⟨?_, ?_, ?_, ?_⟩
  · exact chunkStep_alive_le predict get_reward lo hi
  · intro acts c j h1 h2 hnn hfire
    simp only [chunkStep, if_pos (And.intro h1 h2), hfire]
    rw [sub_self, min_eq_right hnn]
  · intro acts c j h1 h2
    simp only [chunkStep, if_pos (And.intro h1 h2)]
  · intro brk fuel t c j hd1 hj
    exact chunkLoop_dead predict get_reward lo hi plan hd1 brk fuel t c j hj

def c7_state : ChunkState Unit where
  obs := fun _ => ()
  alive := fun _ => 1
  score := fun _ => 0

def c7_dead_state : ChunkState Unit where
  obs := fun _ => ()
  alive := fun _ => 0
  score := fun _ => 7

def c7_reward : Unit → Unit → Unit → ℚ × ℚ := fun _ _ _ => (3, 1)

/-- Witness for C7 at a concrete configuration: one particle (`lo = 0`,
`hi = 1`), reward 3 and done flag 1 at every transition. -/
theorem alive_mask_monotone_witness :
    ((chunkStep (fun _ _ => ()) c7_reward 0 1 (fun _ => ()) c7_state).alive 0
        ≤ c7_state.alive 0) ∧
    ((chunkStep (fun _ _ => ()) c7_reward 0 1 (fun _ => ()) c7_state).alive 0 = 0) ∧
    ((chunkStep (fun _ _ => ()) c7_reward 0 1 (fun _ => ()) c7_state).score 0
        = c7_state.score 0 +
          (chunkStep (fun _ _ => ()) c7_reward 0 1 (fun _ => ()) c7_state).alive 0 *
            (c7_reward () () ()).1) ∧
    ((chunkLoop (fun _ _ => ()) c7_reward false 0 1 (fun _ _ => ()) 0 2
        c7_dead_state).alive 0 = 0 ∧
      (chunkLoop (fun _ _ => ()) c7_reward false 0 1 (fun _ _ => ()) 0 2
        c7_dead_state).score 0 = c7_dead_state.score 0) := by
  have h := alive_mask_monotone (fun _ _ => ()) c7_reward 0 1 (fun _ _ => ())
  refine ⟨h.1 (fun _ => ()) c7_state 0, ?_, ?_, ?_⟩
  · exact h.2.1 (fun _ => ()) c7_state 0 (by decide) (by decide) (by norm_num [c7_state]) rfl
  · exact h.2.2.1 (fun _ => ()) c7_state 0 (by decide) (by decide)
  · exact h.2.2.2 false 2 0 c7_dead_state 0
      (fun _ _ _ => by norm_num [c7_reward]) rfl

/-- Claim C8: the early exit of the horizon loop when every particle of a
chunk has terminated (lines 319-320) is a pure optimization: the score matrix
produced by `_compile_score` with the break equals the one produced by
iterating the full planning horizon without the break, whenever the done
outputs of the reward hook are 0/1 flags. -/
theorem compile_score_break_equiv {σ α : Type} (predict : σ → α → σ)
    (get_reward : σ → α → σ → ℚ × ℚ)
    (num_obs num_plans num_part plan_hor batch_size : Nat)
    (plans : Nat → Nat → Nat → α) (cur_obs : Nat → σ)
    (hb : ∀ s a s2, (get_reward s a s2).2 = 0 ∨ (get_reward s a s2).2 = 1) :
    ∀ o p, compile_score predict get_reward true num_obs num_plans num_part plan_hor
        batch_size plans cur_obs o p
      = compile_score predict get_reward false num_obs num_plans num_part plan_hor
        batch_size plans cur_obs o p := by
  intro o p
  simp only [compile_score]
  congr 1
  refine Finset.sum_congr rfl ?_
  intro k _
  simp only [compile_score_flat]
  exact chunkLoop_break_eq predict get_reward _ _ _ hb plan_hor 0
    (initChunk num_obs cur_obs) (fun _ => Or.inr rfl) _

/-- Witness for C8: a two-step horizon over one particle with constant reward
2 and done flag 0. -/
theorem compile_score_break_equiv_witness :
    compile_score (fun _ _ => ()) (fun _ _ _ => ((2 : ℚ), 0)) true 1 1 1 2 1
        (fun _ _ _ => ()) (fun _ => ()) 0 0
      = compile_score (fun _ _ => ()) (fun _ _ _ => ((2 : ℚ), 0)) false 1 1 1 2 1
        (fun _ _ _ => ()) (fun _ => ()) 0 0 :=
  compile_score_break_equiv (fun _ _ => ()) (fun _ _ _ => ((2 : ℚ), 0)) 1 1 1 2 1
    (fun _ _ _ => ()) (fun _ => ()) (fun _ _ _ => Or.inl rfl) 0 0

/-- Claim C2 (amended form): if the reward hook reports `done = 1` on the very
first rollout step for every particle (and its done outputs are 0/1 flags),
then every entry of the score matrix returned by `_compile_score` is 0: since
line 315 updates the alive mask before line 316 accumulates
`alives * rewards`, even the first step's reward is excluded, not only the
later ones. -/
theorem compile_score_first_step_done {σ α : Type} (predict : σ → α → σ)
    (get_reward : σ → α → σ → ℚ × ℚ)
    (num_obs num_plans num_part plan_hor batch_size : Nat)
    (plans : Nat → Nat → Nat → α) (cur_obs : Nat → σ)
    (hb : ∀ s a s2, (get_reward s a s2).2 = 0 ∨ (get_reward s a s2).2 = 1)
    (h1 : ∀ j, j < num_obs * num_plans * num_part →
        (get_reward (flat_obs num_obs cur_obs j)
          (flat_plans num_plans num_part plans j 0)
          (predict (flat_obs num_obs cur_obs j)
            (flat_plans num_plans num_part plans j 0))).2 = 1)
    (hhor : 0 < plan_hor) (hbs : 0 < batch_size) :
    ∀ o p, o < num_obs → p < num_plans →
      compile_score predict get_reward true num_obs num_plans num_part plan_hor
        batch_size plans cur_obs o p = 0 := by
  have hd1 : ∀ s a s2, (get_reward s a s2).2 ≤ 1 := by
    intro s a s2
    rcases hb s a s2 with h | h <;> rw [h] <;> norm_num
  intro o p ho hp
  have hflat : ∀ j, j < num_obs * num_plans * num_part →
      compile_score_flat predict get_reward true num_obs num_plans num_part plan_hor
        batch_size plans cur_obs j = 0 := by
    intro j hj
    simp only [compile_score_flat]
    obtain ⟨f, hf⟩ : ∃ f, plan_hor = f + 1 := ⟨plan_hor - 1, by omega⟩
    rw [hf]
    set lo := j / batch_size * batch_size with hlo
    set hi := min ((j / batch_size + 1) * batch_size) (num_obs * num_plans * num_part)
      with hhi
    have hstep_fact : ∀ j2,
        (chunkStep predict get_reward lo hi
          (fun j3 => flat_plans num_plans num_part plans j3 0)
          (initChunk num_obs cur_obs)).score j2 = 0 ∧
        (lo ≤ j2 → j2 < hi →
          (chunkStep predict get_reward lo hi
            (fun j3 => flat_plans num_plans num_part plans j3 0)
            (initChunk num_obs cur_obs)).alive j2 = 0) := by
      intro j2
      by_cases hin : lo ≤ j2 ∧ j2 < hi
      · have hj2N : j2 < num_obs * num_plans * num_part := by
          have : hi ≤ num_obs * num_plans * num_part := min_le_right _ _
          omega
        have hdone := h1 j2 hj2N
        have hobs : (initChunk num_obs cur_obs : ChunkState σ).obs j2
            = flat_obs num_obs cur_obs j2 := rfl
        constructor
        · simp only [chunkStep, if_pos hin, initChunk, hdone]
          rw [sub_self, min_eq_right (by norm_num)]
          ring
        · intro _ _
          simp only [chunkStep, if_pos hin, initChunk, hdone]
          rw [sub_self, min_eq_right (by norm_num)]
      · have hout := chunkStep_out predict get_reward lo hi
          (fun j3 => flat_plans num_plans num_part plans j3 0)
          (initChunk num_obs cur_obs) j2 hin
        refine ⟨hout.2.2.trans rfl, ?_⟩
        intro ha hb2
        exact absurd (And.intro ha hb2) hin
    simp only [chunkLoop]
    by_cases hcond : (Finset.Ico lo hi).sum
        (chunkStep predict get_reward lo hi
          (fun j3 => flat_plans num_plans num_part plans j3 0)
          (initChunk num_obs cur_obs)).alive = 0
    · rw [if_pos (And.intro trivial hcond)]
      exact (hstep_fact j).1
    · rw [if_neg (fun hc => hcond hc.2)]
      rw [chunkLoop_all_dead_score predict get_reward lo hi
        (flat_plans num_plans num_part plans) hd1 true f 1 _
        (fun j2 ha hb2 => (hstep_fact j2).2 ha hb2) j]
      exact (hstep_fact j).1
  simp only [compile_score]
  rw [Finset.sum_eq_zero, zero_div]
  intro k hk
  apply hflat
  have hkk := Finset.mem_range.mp hk
  have hop : o * num_plans + p + 1 ≤ num_obs * num_plans := by
    calc o * num_plans + p + 1 ≤ o * num_plans + num_plans := by omega
      _ = (o + 1) * num_plans := by ring
      _ ≤ num_obs * num_plans := Nat.mul_le_mul_right _ ho
  calc (o * num_plans + p) * num_part + k
      < (o * num_plans + p) * num_part + num_part := by omega
    _ = (o * num_plans + p + 1) * num_part := by ring
    _ ≤ num_obs * num_plans * num_part := Nat.mul_le_mul_right _ hop

def c2_reward : Unit → Unit → Unit → ℚ × ℚ := fun _ _ _ => (5, 1)

/-- Witness for the amended C2 at a concrete configuration: one observation,
one plan, one particle, horizon 1, reward 5 and done flag 1 on the first
step: the returned score is 0. -/
theorem compile_score_first_step_done_witness :
    compile_score (fun _ _ => ()) c2_reward true 1 1 1 1 1
        (fun _ _ _ => ()) (fun _ => ()) 0 0 = 0 :=
  compile_score_first_step_done (fun _ _ => ()) c2_reward 1 1 1 1 1
    (fun _ _ _ => ()) (fun _ => ()) (fun _ _ _ => Or.inr rfl)
    (fun _ _ => rfl) (by decide) (by decide) 0 0 (by decide) (by decide)

/-- Claim C2 as stated is false: with reward 5 and done flag 1 on the first
(and only) step, the score returned by `_compile_score` is 0, while the
first-step reward contribution the claim promises is 5.  Line 315 updates the
alive mask to 0 before line 316 accumulates `alives * rewards`, so the reward
of the terminating step itself is dropped. -/
theorem compile_score_first_step_done_counterexample :
    compile_score (fun _ _ => ()) c2_reward true 1 1 1 1 1
        (fun _ _ _ => ()) (fun _ => ()) 0 0 = 0 ∧
    (c2_reward () () ()).1 = 5 ∧ (0 : ℚ) ≠ 5 := by
  refine ⟨?_, rfl, by norm_num⟩
  simp only [compile_score, compile_score_flat, initChunk, chunkLoop, chunkStep,
    flat_obs, flat_plans, c2_reward, ite_self]
  norm_num

def c1_plans : Nat → Nat → Nat → ℚ := fun o p _ => 10 * o + p

def c1_obs : Nat → ℚ := fun i => i

/-- Claim C1 (refuted; evaluation of the code at the failing input): the claim
says every flat row pairs its expanded plan with the starting observation that
plan was proposed for, i.e. row `j` should start at
`cur_obs (j / (num_plans * num_part))`.  With `num_obs = 2`, `num_plans = 2`,
`num_part = 1` and distinct starting observations `cur_obs i = i`, flat row 1
holds the plan of observation 0 (plan index 1) — first conjunct — but starts at
observation `1 % 2 = 1` — second conjunct — which differs from observation 0 —
third conjunct.  The cause: line 290 tiles the observations
(`cur_obs.repeat`, row `j ↦ j % num_obs`) while lines 283-285 flatten the
plans observation-major (row `j ↦ j / (num_plans * num_part)`). -/
theorem compile_score_obs_pairing_bug :
    flat_plans 2 1 c1_plans 1 0 = c1_plans (1 / (2 * 1)) ((1 / 1) % 2) 0 ∧
    flat_obs 2 c1_obs 1 = c1_obs (1 % 2) ∧
    c1_obs (1 % 2) ≠ c1_obs (1 / (2 * 1)) := by
  refine ⟨rfl, rfl, ?_⟩
  simp only [c1_obs]
  norm_num

/-- Controller state visible to the claims about `MPC` (controller.py): the
`has_been_trained` flag (line 66 / line 89), the stored transition dataset
`self.X`, `self.Y` (line 92 / line 171), the input-normalization statistics
held by the model (`fit_input_stats`), the model parameters, and the
train/eval mode flag of `model.net`.  The contents of the dataset, statistics
and parameters are abstract type parameters: the claims below only concern
which operations change them. -/
structure MPCState (D S Θ : Type) where
  has_been_trained : Bool
  X : D
  Y : D
  input_stats : S
  params : Θ
  training_mode : Bool

/-- `np.random.uniform(low, high)` draws `low + (high - low) * u` where `u` is
a raw uniform draw on `[0, 1)`; the embedding passes the raw draws
explicitly. -/
def uniform_sample (low high u : ℚ) : ℚ := low + (high - low) * u

/-- The action built by the untrained branch of `MPC.act` (controller.py,
line 230): `np.random.uniform(-act_bound, act_bound, (act_features,))`, one
uniform draw per action feature. -/
def act_untrained_action (act_bound : ℚ) (u : Nat → ℚ) : Nat → ℚ :=
  fun i => uniform_sample (-act_bound) act_bound (u i)

/-- Embedding of `MPC.act_parallel` (controller.py, lines 238-256):
`self.model.net.eval()` clears the training-mode flag, then
`self.optimizer.obtain_solution(obs, self._compile_score, particle_info)`
produces the optimized plans and the first action of each plan is returned
(`plans[:, 0]`).  `obtain_solution` stands for `CEMOptimizer.obtain_solution`
(optimizer.py is not among the sources here); modelled from the spec: it reads
the controller state only through the `_compile_score` closure and mutates
only its own per-call action-sequence belief, so it is a pure function of the
state. -/
def act_parallel {D S Θ α : Type} (st : MPCState D S Θ)
    (obtain_solution : MPCState D S Θ → Nat → Nat → α) :
    (Nat → α) × MPCState D S Θ :=
  let st2 := { st with training_mode := false }
  (fun o => obtain_solution st2 o 0, st2)

/-- Embedding of `MPC.act` (controller.py, lines 221-236): an untrained
controller returns one uniform action and an empty info dictionary (lines
229-230) without touching anything else; a trained controller delegates to
`act_parallel` and returns the aggregated particle diagnostics
(`particle_info.average()`), abstracted as a function of the state after
planning. -/
def act {D S Θ : Type} (st : MPCState D S Θ) (act_bound : ℚ) (u : Nat → ℚ)
    (obtain_solution : MPCState D S Θ → Nat → Nat → ℚ)
    (particle_info : MPCState D S Θ → List (Nat × ℚ)) :
    ((Nat → ℚ) × List (Nat × ℚ)) × MPCState D S Θ :=
  if st.has_been_trained then
    let r := act_parallel st obtain_solution
    ((r.1, particle_info r.2), r.2)
  else ((act_untrained_action act_bound u, []), st)

/-- Claim C9: for an untrained controller, `act` returns the uniform action
with empty diagnostic info and the unchanged state, for every planner (so no
optimizer or model invocation can influence the result), and each action
component lies within `[-act_bound, act_bound]` whenever the raw uniform
draws lie in `[0, 1)` and the bound is nonnegative. -/
theorem act_untrained_spec {D S Θ : Type} (st : MPCState D S Θ) (act_bound : ℚ)
    (act_features : Nat) (u : Nat → ℚ)
    (hst : st.has_been_trained = false) (hb : 0 ≤ act_bound)
    (hu : ∀ i, 0 ≤ u i ∧ u i < 1) :
    (∀ obtain_solution particle_info,
        act st act_bound u obtain_solution particle_info
          = ((act_untrained_action act_bound u, []), st)) ∧
    (∀ i, i < act_features →
        -act_bound ≤ act_untrained_action act_bound u i ∧
        act_untrained_action act_bound u i ≤ act_bound) := by
  constructor
  · intro obtain_solution particle_info
    simp [act, hst]
  · intro i _
    obtain ⟨h0, h1⟩ := hu i
    simp only [act_untrained_action, uniform_sample]
    constructor
    · nlinarith
    · nlinarith

def c9_state : MPCState Unit Unit Unit where
  has_been_trained := false
  X := ()
  Y := ()
  input_stats := ()
  params := ()
  training_mode := true

/-- Witness for C9: a concrete untrained controller state with `act_bound = 1`
and constant raw draw `1/2`. -/
theorem act_untrained_spec_witness :
    act c9_state 1 (fun _ => 1/2) (fun _ _ _ => 0) (fun _ => [])
        = ((act_untrained_action 1 (fun _ => 1/2), []), c9_state) ∧
    (-1 ≤ act_untrained_action 1 (fun _ => 1/2) 0 ∧
      act_untrained_action 1 (fun _ => 1/2) 0 ≤ 1) := by
  have h := act_untrained_spec c9_state 1 3 (fun _ => 1/2) rfl (by norm_num)
    (fun _ => by norm_num)
  exact ⟨h.1 (fun _ _ _ => 0) (fun _ => []), h.2 0 (by decide)⟩

/-- Embedding of the part of `train_initial` (controller.py, lines 76-154)
that decides claim C4: line 89 `self.has_been_trained = True` executes first,
before the data preprocessing, statistics fitting and training loop, any of
which can raise; no statement after line 89 writes `has_been_trained` again.
`rest` abstracts lines 92-154 as a fallible state transformer. -/
def train_initial_flag {D S Θ E : Type} (st : MPCState D S Θ)
    (rest : MPCState D S Θ → Except E (MPCState D S Θ)) :
    MPCState D S Θ × Except E Unit :=
  let st1 := { st with has_been_trained := true }
  match rest st1 with
  | Except.ok st2 => (st2, Except.ok ())
  | Except.error e => (st1, Except.error e)

def c4_state : MPCState Unit Unit Unit where
  has_been_trained := false
  X := ()
  Y := ()
  input_stats := ()
  params := ()
  training_mode := true

def c4_failing_rest : MPCState Unit Unit Unit → Except Unit (MPCState Unit Unit Unit) :=
  fun _ => Except.error ()

/-- Claim C4 as stated is false: starting from an untrained controller, a
`train_initial` call whose body raises after line 89 still leaves
`has_been_trained = True` (the flag is assigned on entry, not on successful
completion), and a subsequent `act` call delegates to the planner (here
returning the planner value 5) instead of the uniformly-random branch (which
would give `-1` for raw draw 0 and bound 1). -/
theorem train_initial_error_counterexample :
    c4_state.has_been_trained = false ∧
    (train_initial_flag c4_state c4_failing_rest).2 = Except.error () ∧
    (train_initial_flag c4_state c4_failing_rest).1.has_been_trained = true ∧
    (act (train_initial_flag c4_state c4_failing_rest).1 1 (fun _ => 0)
        (fun _ _ _ => 5) (fun _ => [])).1.1 0 = 5 ∧
    act_untrained_action 1 (fun _ => 0) 0 = -1 := by
  refine ⟨rfl, rfl, rfl, rfl, ?_⟩
  simp only [act_untrained_action, uniform_sample]
  norm_num

/-- Claim C4 (amended): the controller transitions to Trained upon entry to
`train_initial` — line 89 sets the flag before any fallible work — so when the
body raises, the error propagates and the resulting controller state is
exactly the input state with `has_been_trained` set to true; in particular
the controller does not remain Untrained. -/
theorem train_initial_sets_trained_flag {D S Θ E : Type} (st : MPCState D S Θ)
    (rest : MPCState D S Θ → Except E (MPCState D S Θ)) (e : E)
    (herr : rest { st with has_been_trained := true } = Except.error e) :
    (train_initial_flag st rest).1 = { st with has_been_trained := true } ∧
    (train_initial_flag st rest).1.has_been_trained = true ∧
    (train_initial_flag st rest).2 = Except.error e := by
  simp [train_initial_flag, herr]

/-- Witness for the amended C4 at the concrete failing call of the
counterexample configuration. -/
theorem train_initial_sets_trained_flag_witness :
    (train_initial_flag c4_state c4_failing_rest).1
        = { c4_state with has_been_trained := true } ∧
    (train_initial_flag c4_state c4_failing_rest).1.has_been_trained = true ∧
    (train_initial_flag c4_state c4_failing_rest).2 = Except.error () :=
  train_initial_sets_trained_flag c4_state c4_failing_rest () rfl

/-- `MPC._compile_score` as a method on the controller state: the body
(controller.py, lines 258-332) reads `self` (model, particle count, horizon,
hooks) but assigns no attribute, so the embedded method returns the given
state unchanged alongside the score matrix; the `@torch.no_grad()` decorator
and the optional `particle_info` sink are diagnostics that never touch the
stored training state. -/
def compile_score_method {D S Θ σ α : Type} (st : MPCState D S Θ)
    (predict : σ → α → σ) (get_reward : σ → α → σ → ℚ × ℚ)
    (num_obs num_plans num_part plan_hor batch_size : Nat)
    (plans : Nat → Nat → Nat → α) (cur_obs : Nat → σ) :
    (Nat → Nat → ℚ) × MPCState D S Θ :=
  (compile_score predict get_reward true num_obs num_plans num_part plan_hor batch_size
      plans cur_obs, st)

/-- Claim C10: planning is read-only with respect to training state.
`act_parallel` changes the controller state exactly by clearing the model's
training-mode flag (`model.net.eval()`) — so the stored dataset `X`, `Y`, the
normalization statistics and the model parameters are untouched — the
`_compile_score` method leaves the state entirely unchanged, and `act`
(either branch) also preserves `X`, `Y`, statistics and parameters. -/
theorem planning_frame {D S Θ σ α : Type} (st : MPCState D S Θ)
    (obtain_solution : MPCState D S Θ → Nat → Nat → ℚ)
    (act_bound : ℚ) (u : Nat → ℚ) (particle_info : MPCState D S Θ → List (Nat × ℚ))
    (predict : σ → α → σ) (get_reward : σ → α → σ → ℚ × ℚ)
    (num_obs num_plans num_part plan_hor batch_size : Nat)
    (plans : Nat → Nat → Nat → α) (cur_obs : Nat → σ) :
    ((act_parallel st obtain_solution).2 = { st with training_mode := false }) ∧
    ((act_parallel st obtain_solution).2.X = st.X ∧
      (act_parallel st obtain_solution).2.Y = st.Y ∧
      (act_parallel st obtain_solution).2.input_stats = st.input_stats ∧
      (act_parallel st obtain_solution).2.params = st.params ∧
      (act_parallel st obtain_solution).2.has_been_trained = st.has_been_trained) ∧
    ((compile_score_method st predict get_reward num_obs num_plans num_part plan_hor
        batch_size plans cur_obs).2 = st) ∧
    ((act st act_bound u obtain_solution particle_info).2.X = st.X ∧
      (act st act_bound u obtain_solution particle_info).2.Y = st.Y ∧
      (act st act_bound u obtain_solution particle_info).2.input_stats = st.input_stats ∧
      (act st act_bound u obtain_solution particle_info).2.params = st.params) := by
  refine ⟨rfl, ⟨rfl, rfl, rfl, rfl, rfl⟩, rfl, ?_⟩
  by_cases h : st.has_been_trained <;> simp [act, act_parallel, h]

/-- Configuration stored by a successfully constructed `CEMOptimizer`. -/
structure CEMConfig where
  popsize : Nat
  num_elites : Nat

/-- Modelled from the spec: `CEMOptimizer.__init__` (optimizer.py is not
among the sources here).  Spec section 4.1: constructing with
`num_elites > popsize` is invalid and must be rejected at construction. -/
def cem_init (popsize num_elites : Nat) : Except Unit CEMConfig :=
  if popsize < num_elites then Except.error ()
  else Except.ok ⟨popsize, num_elites⟩

/-- Configuration stored by a successfully constructed `MPC` controller, as
far as claim C5 is concerned. -/
structure MPCConfig where
  num_part : Nat
  num_nets : Nat
  optimizer : CEMConfig

/-- Embedding of `MPC.__init__` (controller.py, lines 50-74): the constructor
stores the particle count and ensemble size, asserts
`num_part % num_nets == 0` (line 68) and only then constructs the CEM
optimizer (line 71), whose own construction-time check is modelled from the
spec in `cem_init`.  A failed check aborts construction: no controller object
exists, so no training or planning can begin. -/
def mpc_init (num_part num_nets popsize num_elites : Nat) : Except Unit MPCConfig :=
  if num_part % num_nets ≠ 0 then Except.error ()
  else
    match cem_init popsize num_elites with
    | Except.ok cem => Except.ok ⟨num_part, num_nets, cem⟩
    | Except.error e => Except.error e

/-- Claim C5: construction fails — before any training or planning — when the
particle count is not a multiple of the ensemble size or when the elite count
exceeds the population size; and a successful construction stores exactly the
requested quantities (no silent truncation). -/
theorem construction_checks (num_part num_nets popsize num_elites : Nat) :
    (num_part % num_nets ≠ 0 →
      mpc_init num_part num_nets popsize num_elites = Except.error ()) ∧
    (popsize < num_elites →
      cem_init popsize num_elites = Except.error () ∧
      mpc_init num_part num_nets popsize num_elites = Except.error ()) ∧
    (∀ cfg, mpc_init num_part num_nets popsize num_elites = Except.ok cfg →
      cfg.num_part = num_part ∧ cfg.num_nets = num_nets ∧
      cfg.optimizer.popsize = popsize ∧ cfg.optimizer.num_elites = num_elites ∧
      num_part % num_nets = 0 ∧ num_elites ≤ popsize) := by
  refine ⟨?_, ?_, ?_⟩
  · intro h
    simp [mpc_init, h]
  · intro h
    refine ⟨by simp [cem_init, h], ?_⟩
    by_cases hmod : num_part % num_nets ≠ 0
    · simp [mpc_init, hmod]
    · simp [mpc_init, hmod, cem_init, h]
  · intro cfg hok
    by_cases hmod : num_part % num_nets ≠ 0
    · simp [mpc_init, hmod] at hok
    · by_cases helite : popsize < num_elites
      · simp [mpc_init, hmod, cem_init, helite] at hok
      · simp only [mpc_init, if_neg hmod, cem_init, if_neg helite, Except.ok.injEq] at hok
        subst hok
        exact ⟨rfl, rfl, rfl, rfl, by omega, by omega⟩

/-- Witness for C5: `num_part = 3`, `num_nets = 2` is rejected;
`popsize = 10`, `num_elites = 11` is rejected; `num_part = 4`, `num_nets = 2`,
`popsize = 10`, `num_elites = 5` is accepted and stored verbatim. -/
theorem construction_checks_witness :
    mpc_init 3 2 10 5 = Except.error () ∧
    (cem_init 10 11 = Except.error () ∧ mpc_init 4 2 10 11 = Except.error ()) ∧
    (MPCConfig.mk 4 2 (CEMConfig.mk 10 5)).num_part = 4 := by
  refine ⟨?_, ?_, rfl⟩
  · exact (construction_checks 3 2 10 5).1 (by decide)
  · exact (construction_checks 4 2 10 11).2.1 (by decide)

/-- Modelled from the spec: the state of the `EarlyStopping` utility used by
`train_initial` (controller.py, lines 110, 115, 147, 150, 152); utils.py is
not among the sources here.  Spec section 3 `EarlyStoppingState`: the
best-observed validation metric so far, the epochs-since-improvement counter,
and a snapshot of the best model parameters (recorded here together with the
epoch it was taken at); `early_stop` is the flag the training loop polls. -/
structure EarlyStopping (Θ : Type) where
  patience : Nat
  best : Option ℚ
  counter : Nat
  early_stop : Bool
  snapshot : Option (Θ × Nat)

/-- Modelled from the spec: a fresh `EarlyStopping(patience=20)`
(controller.py, line 110): nothing observed yet, counter 0, not stopped. -/
def es_init (Θ : Type) (patience : Nat) : EarlyStopping Θ where
  patience := patience
  best := none
  counter := 0
  early_stop := false
  snapshot := none

/-- Modelled from the spec: one `early_stopping.step(metric, model, info)`
call (controller.py, line 147).  An improving metric (strictly below the
best) resets the counter and captures a snapshot by value; a non-improving
metric increments the counter, and once the metric has failed to improve for
`patience` consecutive epochs the stop flag is raised (spec sections 3, 4.3
and 8). -/
def es_step {Θ : Type} (metric : ℚ) (params : Θ) (epoch : Nat)
    (es : EarlyStopping Θ) : EarlyStopping Θ :=
  match es.best with
  | none =>
    { es with best := some metric, counter := 0, snapshot := some (params, epoch) }
  | some b =>
    if metric < b then
      { es with best := some metric, counter := 0, snapshot := some (params, epoch) }
    else
      { es with counter := es.counter + 1,
                early_stop := decide (es.patience ≤ es.counter + 1) }

/-- Modelled from the spec: `early_stopping.load_best(model)` restores the
parameters of the best snapshot (controller.py, line 150). -/
def load_best {Θ : Type} (es : EarlyStopping Θ) (current : Θ) : Θ :=
  match es.snapshot with
  | some ps => ps.1
  | none => current

/-- The `train_initial` training loop (controller.py, lines 114-147):
`epoch = 0; while not early_stopping.early_stop: epoch += 1; ...;
early_stopping.step(...)`.  The per-epoch mean validation cross-entropy is
abstracted as the sequence `metric` and the parameters at the end of epoch
`n` as `params n`; `fuel` bounds the number of iterations unwound (the
theorems below always supply enough for the loop to reach its stopping
point).  Returns the final epoch counter and early-stopping state. -/
def train_loop {Θ : Type} (metric : Nat → ℚ) (params : Nat → Θ) :
    Nat → Nat → EarlyStopping Θ → Nat × EarlyStopping Θ
  | 0, epoch, es => (epoch, es)
  | fuel + 1, epoch, es =>
    if es.early_stop then (epoch, es)
    else
      train_loop metric params fuel (epoch + 1)
        (es_step (metric (epoch + 1)) (params (epoch + 1)) (epoch + 1) es)

/-- The early-stopping state after epochs `1, 2, ..., n` have been scored. -/
def es_after {Θ : Type} (metric : Nat → ℚ) (params : Nat → Θ) (patience : Nat) :
    Nat → EarlyStopping Θ
  | 0 => es_init Θ patience
  | n + 1 =>
    es_step (metric (n + 1)) (params (n + 1)) (n + 1)
      (es_after metric params patience n)

lemma train_loop_reaches {Θ : Type} (metric : Nat → ℚ) (params : Nat → Θ)
    (patience n : Nat)
    (hstop : (es_after metric params patience n).early_stop = true)
    (hrun : ∀ j, j < n → (es_after metric params patience j).early_stop = false) :
    ∀ fuel e, e ≤ n → n ≤ e + fuel →
      train_loop metric params fuel e (es_after metric params patience e)
        = (n, es_after metric params patience n) := by
  intro fuel
  induction fuel with
  | zero =>
    intro e he1 he2
    have : e = n := by omega
    subst this
    rfl
  | succ f ih =>
    intro e he1 he2
    by_cases hen : e = n
    · subst hen
      simp only [train_loop, hstop, if_true]
    · have helt : e < n := by omega
      have hfalse := hrun e helt
      simp only [train_loop, hfalse, Bool.false_eq_true, if_false]
      exact ih (e + 1) (by omega) (by omega)

lemma es_after_improving_phase {Θ : Type} (metric : Nat → ℚ) (params : Nat → Θ)
    (patience k : Nat) (hk : 1 ≤ k)
    (himp : ∀ j, 1 ≤ j → j < k → metric (j + 1) < metric j) :
    ∀ n, 1 ≤ n → n ≤ k →
      es_after metric params patience n
        = ⟨patience, some (metric n), 0, false, some (params n, n)⟩ := by
  intro n
  induction n with
  | zero => intro h1 _; omega
  | succ m ih =>
    intro _ hle
    by_cases hm : m = 0
    · subst hm
      simp only [es_after, es_init, es_step]
    · have hm1 : 1 ≤ m := by omega
      have hmk : m ≤ k := by omega
      rw [show m + 1 = m + 1 from rfl, es_after, ih hm1 hmk]
      simp only [es_step]
      rw [if_pos (himp m hm1 (by omega))]

lemma es_after_flat_phase {Θ : Type} (metric : Nat → ℚ) (params : Nat → Θ)
    (patience k : Nat) (hk : 1 ≤ k)
    (himp : ∀ j, 1 ≤ j → j < k → metric (j + 1) < metric j)
    (hflat : ∀ j, k < j → j ≤ k + patience → metric k ≤ metric j) :
    ∀ d, 1 ≤ d → d ≤ patience →
      es_after metric params patience (k + d)
        = ⟨patience, some (metric k), d, decide (patience ≤ d), some (params k, k)⟩ := by
  intro d
  induction d with
  | zero => intro h1 _; omega
  | succ c ih =>
    intro _ hle
    by_cases hc : c = 0
    · subst hc
      rw [show k + 1 = k + 1 from rfl, es_after,
        es_after_improving_phase metric params patience k hk himp k hk le_rfl]
      simp only [es_step]
      rw [if_neg (by
        have := hflat (k + 1) (by omega) (by omega)
        exact not_lt.mpr this)]
    · have hc1 : 1 ≤ c := by omega
      have hstep : k + (c + 1) = (k + c) + 1 := by omega
      rw [hstep, es_after, ih hc1 (by omega)]
      simp only [es_step]
      rw [if_neg (by
        have := hflat (k + c + 1) (by omega) (by omega)
        exact not_lt.mpr this)]

/-- Claim C3 (spec-modelled, the `EarlyStopping` utility of utils.py is not
among the sources): if the mean validation cross-entropy improves strictly up
to epoch `k` and then fails to improve for the next `patience = 20`
consecutive epochs, the `train_initial` loop halts exactly at epoch `k + 20`,
`load_best` restores the parameter snapshot taken at epoch `k`, and the
reported `time/train_epochs` metric, `epoch - patience` (controller.py, line
152), equals `k`. -/
theorem train_initial_early_stopping {Θ : Type} (metric : Nat → ℚ)
    (params : Nat → Θ) (k : Nat) (hk : 1 ≤ k)
    (himp : ∀ j, 1 ≤ j → j < k → metric (j + 1) < metric j)
    (hflat : ∀ j, k < j → j ≤ k + 20 → metric k ≤ metric j) :
    (train_loop metric params (k + 20) 0 (es_init Θ 20)).1 = k + 20 ∧
    (train_loop metric params (k + 20) 0 (es_init Θ 20)).2.early_stop = true ∧
    (train_loop metric params (k + 20) 0 (es_init Θ 20)).2.snapshot
      = some (params k, k) ∧
    (∀ cur, load_best (train_loop metric params (k + 20) 0 (es_init Θ 20)).2 cur
      = params k) ∧
    (train_loop metric params (k + 20) 0 (es_init Θ 20)).1 - 20 = k := by
  have hfinal : es_after metric params 20 (k + 20)
      = ⟨20, some (metric k), 20, true, some (params k, k)⟩ := by
    rw [es_after_flat_phase metric params 20 k hk himp hflat 20 (by omega) le_rfl]
    norm_num
  have hrun : ∀ j, j < k + 20 → (es_after metric params 20 j).early_stop = false := by
    intro j hj
    by_cases hj0 : j = 0
    · subst hj0; rfl
    · by_cases hjk : j ≤ k
      · rw [es_after_improving_phase metric params 20 k hk himp j (by omega) hjk]
      · have hd1 : 1 ≤ j - k := by omega
        have hd2 : j - k ≤ 20 := by omega
        have hjk2 : j = k + (j - k) := by omega
        rw [hjk2, es_after_flat_phase metric params 20 k hk himp hflat (j - k) hd1 hd2]
        simp only [decide_eq_false_iff_not, not_le]
        omega
  have hstop : (es_after metric params 20 (k + 20)).early_stop = true := by
    rw [hfinal]
  have hloop := train_loop_reaches metric params 20 (k + 20) hstop hrun (k + 20) 0
    (by omega) (by omega)
  have hinit : es_after metric params 20 0 = es_init Θ 20 := rfl
  rw [hinit] at hloop
  rw [hloop, hfinal]
  refine ⟨rfl, rfl, rfl, fun cur => rfl, by omega⟩

/-- Witness for C3 at a concrete configuration: a constant metric sequence
(best attained at epoch `k = 1`, never improving afterwards) with
`params n = n`: the loop halts at epoch 21, the snapshot is the one from
epoch 1, and the reported epoch count is 1. -/
theorem train_initial_early_stopping_witness :
    (train_loop (fun _ => (0 : ℚ)) (fun n => n) 21 0 (es_init Nat 20)).1 = 21 ∧
    (train_loop (fun _ => (0 : ℚ)) (fun n => n) 21 0 (es_init Nat 20)).2.snapshot
      = some (1, 1) ∧
    load_best (train_loop (fun _ => (0 : ℚ)) (fun n => n) 21 0 (es_init Nat 20)).2 99
      = 1 ∧
    (train_loop (fun _ => (0 : ℚ)) (fun n => n) 21 0 (es_init Nat 20)).1 - 20 = 1 := by
  have h := train_initial_early_stopping (Θ := Nat) (fun _ => (0 : ℚ)) (fun n => n) 1
    le_rfl (fun j h1 h2 => by omega) (fun j _ _ => le_rfl)
  exact ⟨h.1, h.2.2.1, h.2.2.2.1 99, h.2.2.2.2⟩

end HOT
